import Mathlib

/-!
Shallow embedding of the object-name management core in
`distrib/android-emugl/host/libs/Translator/GLcommon/objectNameManager.cpp`:
per-type local/global name tables (`NameSpace`), the backend name allocator
(`GlobalNameSpace`), the per-group aggregate (`ShareGroup`) and the group
registry (`ObjectNameManager`).

Modelling decisions:
* C++ `unordered_map`s become association lists (`List (key × value)`) whose
  keys stay duplicate-free along every code path; `operator[]` assignment is
  `setA` (overwrite), `emplace` is `emplaceA` (insert only when absent),
  `erase` is `eraseA`, `find` is `lookupA`.
* The GL backend called by `GlobalNameSpace` (`glGenTextures`,
  `glDeleteTextures`, ...) lives outside the translated file; following the
  spec it is modelled as a strictly increasing fresh-name counter plus a log
  of every delete call (`deleted`).  `SHADER` and out-of-range types yield 0.
* Mutex locking is dropped: every claim is about the sequential semantics.
* `decTexRefCounterAndReleaseIf0` contains `assert` statements; a run that
  trips one is modelled as `none` (the operation does not return normally).
* `ObjectNameManager` stores `ShareGroupPtr` values (shared pointers); the
  model keeps a heap from group ids to group states, and the registry maps
  keys to group ids, so that aliasing of one group by several keys is exact.
-/

def VERTEXBUFFER : Nat := 0
def TEXTURE : Nat := 1
def RENDERBUFFER : Nat := 2
def FRAMEBUFFER : Nat := 3
def SHADER : Nat := 4
def NUM_OBJECT_TYPES : Nat := 5

/-- Embeds `unordered_map::find`, first entry with the given key. -/
def lookupA {κ β : Type} [DecidableEq κ] : List (κ × β) → κ → Option β
  | [], _ => none
  | (k, v) :: rest, k' => if k' = k then some v else lookupA rest k'

/-- Embeds `unordered_map::erase` by key (keys are duplicate-free on every path). -/
def eraseA {κ β : Type} [DecidableEq κ] : List (κ × β) → κ → List (κ × β)
  | [], _ => []
  | (k, v) :: rest, k' => if k = k' then eraseA rest k' else (k, v) :: eraseA rest k'

/-- Embeds `unordered_map::operator[]` followed by assignment: insert or overwrite. -/
def setA {κ β : Type} [DecidableEq κ] (m : List (κ × β)) (k : κ) (v : β) :
    List (κ × β) :=
  (k, v) :: eraseA m k

/-- Embeds `unordered_map::emplace`: insert only when the key is absent. -/
def emplaceA {κ β : Type} [DecidableEq κ] (m : List (κ × β)) (k : κ) (v : β) :
    List (κ × β) :=
  match lookupA m k with
  | some _ => m
  | none => (k, v) :: m

/-- Modelled from the spec: the backend (graphics dispatch layer) that
`GlobalNameSpace` calls through `GLEScontext::dispatcher()` is outside the
translated file.  Per the spec it produces one fresh host-side name per
`backendAllocate` call; `deleted` logs every `backendDelete(type, name)`
call.  The lazily bound delete-dispatch table of the C++ code only routes
those calls and is not observable here. -/
structure GlobalNameSpace where
  nextGlobal : Nat := 0
  deleted : List (Nat × Nat) := []
deriving DecidableEq

def GlobalNameSpace.init : GlobalNameSpace := {}

/-- Embeds `GlobalNameSpace::genName`: out-of-range types yield 0; `SHADER` (and the
default switch branch) yields 0; the four real object types get a fresh
backend name. -/
def GlobalNameSpace.genName (g : GlobalNameSpace) (p_type : Nat) :
    Nat × GlobalNameSpace :=
  if NUM_OBJECT_TYPES ≤ p_type then (0, g)
  else if p_type = SHADER then (0, g)
  else (g.nextGlobal + 1, { g with nextGlobal := g.nextGlobal + 1 })

/-- Embeds `GlobalNameSpace::deleteName`: for every type except `SHADER`, invoke the
backend deletion primitive (logged). -/
def GlobalNameSpace.deleteName (g : GlobalNameSpace) (p_type p_name : Nat) :
    GlobalNameSpace :=
  if p_type = SHADER then g
  else { g with deleted := (p_type, p_name) :: g.deleted }

/-- One `NameSpace` (per-type local/global name table). -/
structure NameSpace where
  m_type : Nat
  m_nextName : Nat := 0
  m_localToGlobalMap : List (Nat × Nat) := []
  m_globalToLocalMap : List (Nat × Nat) := []
deriving DecidableEq

/-- Embeds `NameSpace::NameSpace(p_type, globalNameSpace)`. -/
def initialNameSpace (t : Nat) : NameSpace :=
  { m_type := t }

/-- The `do { localName = ++m_nextName; } while (localName == 0 || present)`
loop of `NameSpace::genName`, with enough fuel to reach a free name (the Nat
model never wraps around, so the `localName == 0` test never fires). -/
def scanFresh (m : List (Nat × Nat)) : Nat → Nat → Nat
  | 0, cur => cur + 1
  | fuel + 1, cur =>
    if cur + 1 ≠ 0 ∧ lookupA m (cur + 1) = none then cur + 1
    else scanFresh m fuel (cur + 1)

def freshLocal (m : List (Nat × Nat)) (next : Nat) : Nat :=
  scanFresh m (m.length + 1) next

/-- Embeds `NameSpace::genName(p_localName, genGlobal, genLocal)`. -/
def NameSpace.genName (ns : NameSpace) (gns : GlobalNameSpace)
    (p_localName : Nat) (genGlobal genLocal : Bool) :
    Nat × NameSpace × GlobalNameSpace :=
  let localName :=
    if genLocal then freshLocal ns.m_localToGlobalMap ns.m_nextName
    else p_localName
  let ns1 := if genLocal then { ns with m_nextName := localName } else ns
  if genGlobal then
    let res := gns.genName ns1.m_type
    (localName,
      { ns1 with
        m_localToGlobalMap := setA ns1.m_localToGlobalMap localName res.1,
        m_globalToLocalMap := setA ns1.m_globalToLocalMap res.1 localName },
      res.2)
  else (localName, ns1, gns)

/-- Embeds `NameSpace::genGlobalName`. -/
def NameSpace.genGlobalName (ns : NameSpace) (gns : GlobalNameSpace) :
    Nat × GlobalNameSpace :=
  gns.genName ns.m_type

/-- Embeds `NameSpace::getGlobalName`. -/
def NameSpace.getGlobalName (ns : NameSpace) (p_localName : Nat) : Nat :=
  (lookupA ns.m_localToGlobalMap p_localName).getD 0

/-- Embeds `NameSpace::getLocalName`. -/
def NameSpace.getLocalName (ns : NameSpace) (p_globalName : Nat) : Nat :=
  (lookupA ns.m_globalToLocalMap p_globalName).getD 0

/-- Embeds `NameSpace::deleteName`. -/
def NameSpace.deleteName (ns : NameSpace) (gns : GlobalNameSpace)
    (p_localName : Nat) : NameSpace × GlobalNameSpace :=
  match lookupA ns.m_localToGlobalMap p_localName with
  | none => (ns, gns)
  | some g =>
    let gns' := if ns.m_type ≠ TEXTURE then gns.deleteName ns.m_type g else gns
    ({ ns with
        m_globalToLocalMap := eraseA ns.m_globalToLocalMap g,
        m_localToGlobalMap := eraseA ns.m_localToGlobalMap p_localName },
      gns')

/-- Embeds `NameSpace::isObject`. -/
def NameSpace.isObject (ns : NameSpace) (p_localName : Nat) : Bool :=
  (lookupA ns.m_localToGlobalMap p_localName).isSome

/-- Embeds `NameSpace::replaceGlobalName`: note the in-place overwrite of the
local-to-global entry and the `emplace` (not `operator[]`) into the
global-to-local map. -/
def NameSpace.replaceGlobalName (ns : NameSpace) (gns : GlobalNameSpace)
    (p_localName p_globalName : Nat) : NameSpace × GlobalNameSpace :=
  match lookupA ns.m_localToGlobalMap p_localName with
  | none => (ns, gns)
  | some oldG =>
    let gns' :=
      if ns.m_type ≠ TEXTURE then gns.deleteName ns.m_type oldG else gns
    ({ ns with
        m_localToGlobalMap := setA ns.m_localToGlobalMap p_localName p_globalName,
        m_globalToLocalMap :=
          emplaceA (eraseA ns.m_globalToLocalMap oldG) p_globalName p_localName },
      gns')

/-- One `ShareGroup`: one `NameSpace` per object type, the lazily created
`ObjectDataMap` keyed by `(type, local)` (payloads are opaque, modelled as
`Nat`), and the lazily created `TextureRefCounterMap`. -/
structure ShareGroup where
  m_nameSpace : List NameSpace
  m_objectsData : Option (List ((Nat × Nat) × Nat)) := none
  m_globalTextureRefCounter : Option (List (Nat × Nat)) := none
deriving DecidableEq

/-- Embeds `ShareGroup::ShareGroup(globalNameSpace)`. -/
def ShareGroup.init : ShareGroup :=
  { m_nameSpace := (List.range NUM_OBJECT_TYPES).map initialNameSpace }

/-- Embeds `m_nameSpace[t]` (every constructed group has exactly
`NUM_OBJECT_TYPES` entries). -/
def ShareGroup.nsAt (sg : ShareGroup) (t : Nat) : NameSpace :=
  sg.m_nameSpace.getD t (initialNameSpace t)

/-- Embeds `ShareGroup::incTexRefCounterNoLock`: lazily create the ref-count map,
then `size_t& val = (*map)[g]; val++;`. -/
def ShareGroup.incTexRefCounterNoLock (sg : ShareGroup) (p_globalName : Nat) :
    Nat × ShareGroup :=
  let map := sg.m_globalTextureRefCounter.getD []
  let val := (lookupA map p_globalName).getD 0 + 1
  (val, { sg with m_globalTextureRefCounter := some (setA map p_globalName val) })

/-- Embeds `ShareGroup::incTexRefCounter` (the lock is irrelevant here). -/
def ShareGroup.incTexRefCounter (sg : ShareGroup) (p_globalName : Nat) :
    Nat × ShareGroup :=
  sg.incTexRefCounterNoLock p_globalName

/-- Embeds `ShareGroup::decTexRefCounterAndReleaseIf0`.  `none` models a run that
trips one of the two `assert`s (null ref-count map, or a stored count of 0);
otherwise the returned count, group and backend states are as in the code. -/
def ShareGroup.decTexRefCounterAndReleaseIf0 (sg : ShareGroup)
    (gns : GlobalNameSpace) (p_globalName : Nat) :
    Option (Nat × ShareGroup × GlobalNameSpace) :=
  match sg.m_globalTextureRefCounter with
  | none => none
  | some map =>
    match lookupA map p_globalName with
    | none => some (0, sg, gns)
    | some val =>
      if val = 0 then none
      else if val - 1 ≠ 0 then
        some (val - 1,
          { sg with
            m_globalTextureRefCounter := some (setA map p_globalName (val - 1)) },
          gns)
      else
        some (0,
          { sg with m_globalTextureRefCounter := some (eraseA map p_globalName) },
          gns.deleteName TEXTURE p_globalName)

/-- Embeds `ShareGroup::genName(p_type, p_localName, genLocal)`. -/
def ShareGroup.genName (sg : ShareGroup) (gns : GlobalNameSpace)
    (p_type p_localName : Nat) (genLocal : Bool) :
    Nat × ShareGroup × GlobalNameSpace :=
  if NUM_OBJECT_TYPES ≤ p_type then (0, sg, gns)
  else
    let res := (sg.nsAt p_type).genName gns p_localName true genLocal
    let sg1 : ShareGroup :=
      { sg with m_nameSpace := sg.m_nameSpace.set p_type res.2.1 }
    if p_type = TEXTURE then
      (res.1,
        (sg1.incTexRefCounterNoLock (res.2.1.getGlobalName res.1)).2,
        res.2.2)
    else (res.1, sg1, res.2.2)

/-- Embeds `ShareGroup::genGlobalName`. -/
def ShareGroup.genGlobalName (sg : ShareGroup) (gns : GlobalNameSpace)
    (p_type : Nat) : Nat × ShareGroup × GlobalNameSpace :=
  if NUM_OBJECT_TYPES ≤ p_type then (0, sg, gns)
  else
    let res := (sg.nsAt p_type).genGlobalName gns
    (res.1, sg, res.2)

/-- Embeds `ShareGroup::getGlobalName` (state returned to express that the lookup
does not mutate the group). -/
def ShareGroup.getGlobalName (sg : ShareGroup) (p_type p_localName : Nat) :
    Nat × ShareGroup :=
  if NUM_OBJECT_TYPES ≤ p_type then (0, sg)
  else ((sg.nsAt p_type).getGlobalName p_localName, sg)

/-- Embeds `ShareGroup::getLocalName`. -/
def ShareGroup.getLocalName (sg : ShareGroup) (p_type p_globalName : Nat) :
    Nat × ShareGroup :=
  if NUM_OBJECT_TYPES ≤ p_type then (0, sg)
  else ((sg.nsAt p_type).getLocalName p_globalName, sg)

/-- Embeds `ShareGroup::isObject`. -/
def ShareGroup.isObject (sg : ShareGroup) (p_type p_localName : Nat) :
    Bool × ShareGroup :=
  if NUM_OBJECT_TYPES ≤ p_type then (false, sg)
  else ((sg.nsAt p_type).isObject p_localName, sg)

/-- Embeds `ShareGroup::deleteName`: table removal plus unconditional erase of the
metadata entry for `(p_type, p_localName)` when the metadata map exists. -/
def ShareGroup.deleteName (sg : ShareGroup) (gns : GlobalNameSpace)
    (p_type p_localName : Nat) : ShareGroup × GlobalNameSpace :=
  if NUM_OBJECT_TYPES ≤ p_type then (sg, gns)
  else
    let res := (sg.nsAt p_type).deleteName gns p_localName
    let od :=
      match sg.m_objectsData with
      | none => none
      | some m => some (eraseA m (p_type, p_localName))
    ({ sg with
        m_nameSpace := sg.m_nameSpace.set p_type res.1,
        m_objectsData := od },
      res.2)

/-- Embeds `ShareGroup::replaceGlobalName`. -/
def ShareGroup.replaceGlobalName (sg : ShareGroup) (gns : GlobalNameSpace)
    (p_type p_localName p_globalName : Nat) : ShareGroup × GlobalNameSpace :=
  if NUM_OBJECT_TYPES ≤ p_type then (sg, gns)
  else
    let res := (sg.nsAt p_type).replaceGlobalName gns p_localName p_globalName
    ({ sg with m_nameSpace := sg.m_nameSpace.set p_type res.1 }, res.2)

/-- Embeds `ShareGroup::setObjectData`: lazily create the metadata map, then
`emplace` (which does not overwrite an existing entry). -/
def ShareGroup.setObjectData (sg : ShareGroup) (p_type p_localName data : Nat) :
    ShareGroup :=
  if NUM_OBJECT_TYPES ≤ p_type then sg
  else
    let map := sg.m_objectsData.getD []
    { sg with m_objectsData := some (emplaceA map (p_type, p_localName) data) }

/-- Embeds `ShareGroup::getObjectData` (`none` is the default-constructed null
`ObjectDataPtr`). -/
def ShareGroup.getObjectData (sg : ShareGroup) (p_type p_localName : Nat) :
    Option Nat × ShareGroup :=
  if NUM_OBJECT_TYPES ≤ p_type then (none, sg)
  else
    match sg.m_objectsData with
    | none => (none, sg)
    | some map => (lookupA map (p_type, p_localName), sg)

/-- Ref-count-table lookup used by the claims: the count currently stored
for a global texture name (`none` when absent or when the map was never
created). -/
def texRefLookup (sg : ShareGroup) (g : Nat) : Option Nat :=
  lookupA (sg.m_globalTextureRefCounter.getD []) g

/-- Metadata-store lookup used by the claims. -/
def odLookup (sg : ShareGroup) (t l : Nat) : Option Nat :=
  lookupA (sg.m_objectsData.getD []) (t, l)

/-- Embeds `ObjectNameManager`: registry from opaque keys (modelled as `Nat`) to
shared `ShareGroup` handles.  Shared pointers are modelled by a heap from
group ids to group state; several keys may map to one id (aliasing). -/
structure ObjectNameManager where
  m_groups : List (Nat × Nat) := []
  heap : List (Nat × ShareGroup) := []
  nextId : Nat := 0
deriving DecidableEq

def ObjectNameManager.init : ObjectNameManager := {}

/-- Embeds `ObjectNameManager::createShareGroup`. -/
def ObjectNameManager.createShareGroup (mgr : ObjectNameManager) (key : Nat) :
    Nat × ObjectNameManager :=
  match lookupA mgr.m_groups key with
  | some gid => (gid, mgr)
  | none =>
    (mgr.nextId,
      { m_groups := (key, mgr.nextId) :: mgr.m_groups,
        heap := (mgr.nextId, ShareGroup.init) :: mgr.heap,
        nextId := mgr.nextId + 1 })

/-- Embeds `ObjectNameManager::getShareGroup`. -/
def ObjectNameManager.getShareGroup (mgr : ObjectNameManager) (key : Nat) :
    Option Nat :=
  lookupA mgr.m_groups key

/-- Embeds `ObjectNameManager::attachShareGroup`. -/
def ObjectNameManager.attachShareGroup (mgr : ObjectNameManager)
    (key existingKey : Nat) : Option Nat × ObjectNameManager :=
  match lookupA mgr.m_groups existingKey with
  | none => (none, mgr)
  | some gid =>
    match lookupA mgr.m_groups key with
    | none => (some gid, { mgr with m_groups := (key, gid) :: mgr.m_groups })
    | some _ => (some gid, mgr)

/-- Embeds `ObjectNameManager::deleteShareGroup`: erase the registry entry only. -/
def ObjectNameManager.deleteShareGroup (mgr : ObjectNameManager) (key : Nat) :
    ObjectNameManager :=
  { mgr with m_groups := eraseA mgr.m_groups key }

/-- Embeds `ObjectNameManager::getGlobalContext`. -/
def ObjectNameManager.getGlobalContext (mgr : ObjectNameManager) : Option Nat :=
  mgr.m_groups.head?.map Prod.fst

/-- One abstract `NameSpace` operation, for reasoning about arbitrary
operation sequences on one table. -/
inductive NTOp where
  | gen (requested : Nat) (genGlobal genLocal : Bool)
  | del (l : Nat)
  | rebind (l g : Nat)
deriving DecidableEq

/-- Run one operation against a table and the backend state. -/
def NTOp.apply (op : NTOp) (ns : NameSpace) (gns : GlobalNameSpace) :
    NameSpace × GlobalNameSpace :=
  match op with
  | .gen r gg gl => (ns.genName gns r gg gl).2
  | .del l => ns.deleteName gns l
  | .rebind l g => ns.replaceGlobalName gns l g

/-- The two maps of a table are exact inverses: no duplicate local keys, no
duplicate global keys, and `(l, g)` is an entry of one map exactly when
`(g, l)` is an entry of the other. -/
def inverseMaps (ns : NameSpace) : Prop :=
  (ns.m_localToGlobalMap.map Prod.fst).Nodup ∧
  (ns.m_globalToLocalMap.map Prod.fst).Nodup ∧
  (∀ p ∈ ns.m_localToGlobalMap, (p.2, p.1) ∈ ns.m_globalToLocalMap) ∧
  (∀ p ∈ ns.m_globalToLocalMap, (p.2, p.1) ∈ ns.m_localToGlobalMap)

instance (ns : NameSpace) : Decidable (inverseMaps ns) := by
  unfold inverseMaps; infer_instance

/-- Table well-formedness tied to the backend: inverse maps whose global
names were all produced by the backend counter. -/
def NameSpace.WFTables (ns : NameSpace) (gns : GlobalNameSpace) : Prop :=
  inverseMaps ns ∧
  (∀ p ∈ ns.m_localToGlobalMap, p.2 ≤ gns.nextGlobal) ∧
  (∀ p ∈ ns.m_globalToLocalMap, p.1 ≤ gns.nextGlobal)

instance (ns : NameSpace) (gns : GlobalNameSpace) :
    Decidable (ns.WFTables gns) := by
  unfold NameSpace.WFTables; infer_instance

/-- Side condition under which one operation preserves `inverseMaps`
(the amendment claim C2 needs): a generate that reuses an explicit local
name must not collide with a present one, and a rebind must install a
previously allocated, currently unmapped global name. -/
def NTOp.ok (op : NTOp) (ns : NameSpace) (gns : GlobalNameSpace) : Prop :=
  match op with
  | .gen r gg gl =>
      gg = true ∧ gl = false → lookupA ns.m_localToGlobalMap r = none
  | .del _ => True
  | .rebind _ g =>
      lookupA ns.m_globalToLocalMap g = none ∧ g ≤ gns.nextGlobal

instance (op : NTOp) (ns : NameSpace) (gns : GlobalNameSpace) :
    Decidable (op.ok ns gns) := by
  cases op <;> (unfold NTOp.ok; infer_instance)

/-- Every operation of the sequence satisfies its side condition at the
state where it runs. -/
def okRun : List NTOp → NameSpace → GlobalNameSpace → Prop
  | [], _, _ => True
  | op :: rest, ns, gns =>
      op.ok ns gns ∧ okRun rest (op.apply ns gns).1 (op.apply ns gns).2

instance okRunDec :
    ∀ (ops : List NTOp) (ns : NameSpace) (gns : GlobalNameSpace),
      Decidable (okRun ops ns gns)
  | [], _, _ => .isTrue trivial
  | op :: rest, ns, gns =>
    have : Decidable (okRun rest (op.apply ns gns).1 (op.apply ns gns).2) :=
      okRunDec rest _ _
    inferInstanceAs (Decidable (_ ∧ _))

/-- Run a whole operation sequence. -/
def runOps : List NTOp → NameSpace × GlobalNameSpace → NameSpace × GlobalNameSpace
  | [], s => s
  | op :: rest, s => runOps rest (op.apply s.1 s.2)

/-- Runs `n` successive `incTexRefCounter(g)` calls (results discarded). -/
def acqIter (g : Nat) : Nat → ShareGroup → ShareGroup
  | 0, sg => sg
  | n + 1, sg => acqIter g n (sg.incTexRefCounter g).2

/-- Runs `k` successive `decTexRefCounterAndReleaseIf0(g)` calls, returning the
result of the last call (`none` when `k = 0` or when some call asserts). -/
def relIter (g : Nat) :
    Nat → ShareGroup → GlobalNameSpace → Option (Nat × ShareGroup × GlobalNameSpace)
  | 0, _, _ => none
  | 1, sg, gns => sg.decTexRefCounterAndReleaseIf0 gns g
  | k + 2, sg, gns =>
    match sg.decTexRefCounterAndReleaseIf0 gns g with
    | none => none
    | some r => relIter g (k + 1) r.2.1 r.2.2

/-- Registry holding one group registered under key 1 (witness state). -/
def mgrK1 : ObjectNameManager := (ObjectNameManager.init.createShareGroup 1).2

/-- Group and backend state after generating one vertex-buffer name
(witness state). -/
def vbDemo : Nat × ShareGroup × GlobalNameSpace :=
  ShareGroup.init.genName GlobalNameSpace.init VERTEXBUFFER 0 true

/-- Group whose texture ref-count map exists and holds only global 5
(witness state). -/
def texDemo : ShareGroup := (ShareGroup.init.incTexRefCounter 5).2

/-! ### Association-list lemmas -/

theorem lookupA_some_mem {κ β : Type} [DecidableEq κ] {m : List (κ × β)}
    {k : κ} {v : β} (h : lookupA m k = some v) : (k, v) ∈ m := by
  induction m with
  | nil => simp [lookupA] at h
  | cons hd tl ih =>
    obtain ⟨a, b⟩ := hd
    by_cases hk : k = a
    · subst hk
      simp [lookupA] at h
      subst h
      exact List.mem_cons_self _ _
    · simp only [lookupA, if_neg hk] at h
      exact List.mem_cons_of_mem _ (ih h)

theorem lookupA_none_iff {κ β : Type} [DecidableEq κ] {m : List (κ × β)}
    {k : κ} : lookupA m k = none ↔ k ∉ m.map Prod.fst := by
  induction m with
  | nil => simp [lookupA]
  | cons hd tl ih =>
    obtain ⟨a, b⟩ := hd
    by_cases hk : k = a
    · subst hk
      simp [lookupA]
    · simp [lookupA, hk, ih]

theorem lookupA_isSome_of_mem {κ β : Type} [DecidableEq κ] {m : List (κ × β)}
    {k : κ} {v : β} (h : (k, v) ∈ m) : lookupA m k ≠ none := by
  intro hnone
  exact (lookupA_none_iff.mp hnone) (List.mem_map_of_mem Prod.fst h)

theorem mem_lookupA_of_nodup {κ β : Type} [DecidableEq κ] {m : List (κ × β)}
    {k : κ} {v : β} (hnd : (m.map Prod.fst).Nodup) (hm : (k, v) ∈ m) :
    lookupA m k = some v := by
  induction m with
  | nil => cases hm
  | cons hd tl ih =>
    obtain ⟨a, b⟩ := hd
    simp only [List.map_cons, List.nodup_cons] at hnd
    rcases List.mem_cons.mp hm with heq | hmem
    · cases heq
      simp [lookupA]
    · have hka : k ≠ a := by
        intro hk
        subst hk
        exact hnd.1 (List.mem_map_of_mem Prod.fst hmem)
      simp only [lookupA, if_neg hka]
      exact ih hnd.2 hmem

theorem mem_value_unique_of_nodup {κ β : Type} [DecidableEq κ]
    {m : List (κ × β)} {k : κ} {a b : β}
    (hnd : (m.map Prod.fst).Nodup) (ha : (k, a) ∈ m) (hb : (k, b) ∈ m) :
    a = b := by
  have h1 := mem_lookupA_of_nodup hnd ha
  have h2 := mem_lookupA_of_nodup hnd hb
  rw [h1] at h2
  exact Option.some.inj h2

theorem mem_eraseA {κ β : Type} [DecidableEq κ] {m : List (κ × β)}
    {k : κ} {p : κ × β} : p ∈ eraseA m k ↔ p ∈ m ∧ p.1 ≠ k := by
  induction m with
  | nil => simp [eraseA]
  | cons hd tl ih =>
    obtain ⟨a, b⟩ := hd
    by_cases hk : a = k
    · subst hk
      rw [eraseA, if_pos rfl]
      rw [ih]
      constructor
      · rintro ⟨hmem, hne⟩
        exact ⟨List.mem_cons_of_mem _ hmem, hne⟩
      · rintro ⟨hmem, hne⟩
        rcases List.mem_cons.mp hmem with heq | hmem'
        · subst heq
          exact absurd rfl hne
        · exact ⟨hmem', hne⟩
    · rw [eraseA, if_neg hk]
      constructor
      · intro hmem
        rcases List.mem_cons.mp hmem with heq | hmem'
        · subst heq
          exact ⟨List.mem_cons_self _ _, hk⟩
        · obtain ⟨h1, h2⟩ := ih.mp hmem'
          exact ⟨List.mem_cons_of_mem _ h1, h2⟩
      · rintro ⟨hmem, hne⟩
        rcases List.mem_cons.mp hmem with heq | hmem'
        · subst heq
          exact List.mem_cons_self _ _
        · exact List.mem_cons_of_mem _ (ih.mpr ⟨hmem', hne⟩)

theorem eraseA_of_lookupA_none {κ β : Type} [DecidableEq κ]
    {m : List (κ × β)} {k : κ} (h : lookupA m k = none) : eraseA m k = m := by
  induction m with
  | nil => rfl
  | cons hd tl ih =>
    obtain ⟨a, b⟩ := hd
    by_cases hk : k = a
    · subst hk
      simp [lookupA] at h
    · simp only [lookupA, if_neg hk] at h
      have hak : a ≠ k := fun hak => hk hak.symm
      simp [eraseA, if_neg hak, ih h]

theorem lookupA_eraseA_self {κ β : Type} [DecidableEq κ]
    {m : List (κ × β)} {k : κ} : lookupA (eraseA m k) k = none := by
  rw [lookupA_none_iff]
  intro hmem
  rcases List.mem_map.mp hmem with ⟨p, hp, hfst⟩
  exact absurd hfst (mem_eraseA.mp hp).2

theorem lookupA_eraseA_ne {κ β : Type} [DecidableEq κ]
    {m : List (κ × β)} {k k' : κ} (h : k' ≠ k) :
    lookupA (eraseA m k) k' = lookupA m k' := by
  induction m with
  | nil => rfl
  | cons hd tl ih =>
    obtain ⟨a, b⟩ := hd
    by_cases hak : a = k
    · subst hak
      have : k' ≠ a := h
      simp [eraseA, lookupA, if_neg this, ih]
    · by_cases hk' : k' = a
      · subst hk'
        simp [eraseA, if_neg hak, lookupA]
      · simp [eraseA, if_neg hak, lookupA, if_neg hk', ih]

theorem keys_eraseA_subset {κ β : Type} [DecidableEq κ]
    {m : List (κ × β)} {k x : κ} (h : x ∈ (eraseA m k).map Prod.fst) :
    x ∈ m.map Prod.fst := by
  rcases List.mem_map.mp h with ⟨p, hp, hfst⟩
  exact List.mem_map.mpr ⟨p, (mem_eraseA.mp hp).1, hfst⟩

theorem nodup_keys_eraseA {κ β : Type} [DecidableEq κ]
    {m : List (κ × β)} {k : κ} (h : (m.map Prod.fst).Nodup) :
    ((eraseA m k).map Prod.fst).Nodup := by
  induction m with
  | nil => simp [eraseA]
  | cons hd tl ih =>
    obtain ⟨a, b⟩ := hd
    simp only [List.map_cons, List.nodup_cons] at h
    by_cases hak : a = k
    · subst hak
      simp only [eraseA, if_pos rfl]
      exact ih h.2
    · simp only [eraseA, if_neg hak, List.map_cons, List.nodup_cons]
      exact ⟨fun hmem => h.1 (keys_eraseA_subset hmem), ih h.2⟩

theorem lookupA_setA_self {κ β : Type} [DecidableEq κ]
    {m : List (κ × β)} {k : κ} {v : β} : lookupA (setA m k v) k = some v := by
  simp [setA, lookupA]

theorem lookupA_setA_ne {κ β : Type} [DecidableEq κ]
    {m : List (κ × β)} {k k' : κ} {v : β} (h : k' ≠ k) :
    lookupA (setA m k v) k' = lookupA m k' := by
  simp only [setA, lookupA, if_neg h]
  exact lookupA_eraseA_ne h

theorem mem_setA {κ β : Type} [DecidableEq κ]
    {m : List (κ × β)} {k : κ} {v : β} {p : κ × β} :
    p ∈ setA m k v ↔ p = (k, v) ∨ (p ∈ m ∧ p.1 ≠ k) := by
  simp [setA, mem_eraseA]

theorem nodup_keys_setA {κ β : Type} [DecidableEq κ]
    {m : List (κ × β)} {k : κ} {v : β} (h : (m.map Prod.fst).Nodup) :
    ((setA m k v).map Prod.fst).Nodup := by
  simp only [setA, List.map_cons, List.nodup_cons]
  refine ⟨fun hmem => ?_, nodup_keys_eraseA h⟩
  rcases List.mem_map.mp hmem with ⟨p, hp, hfst⟩
  exact absurd hfst (mem_eraseA.mp hp).2

/-! ### Freshness of the generated local name -/

theorem length_filter_mono {α : Type} {p q : α → Bool} {l : List α}
    (h : ∀ a ∈ l, p a = true → q a = true) :
    (l.filter p).length ≤ (l.filter q).length := by
  induction l with
  | nil => simp
  | cons a t ih =>
    have ht : ∀ x ∈ t, p x = true → q x = true :=
      fun x hx => h x (List.mem_cons_of_mem _ hx)
    by_cases hp : p a = true
    · have hq : q a = true := h a (List.mem_cons_self _ _) hp
      simp only [List.filter_cons, hp, hq, if_true, List.length_cons]
      exact Nat.succ_le_succ (ih ht)
    · by_cases hq : q a = true
      · simp only [List.filter_cons, hp, hq, if_true, if_false,
          List.length_cons]
        exact Nat.le_succ_of_le (ih ht)
      · simp only [List.filter_cons, hp, hq, if_false]
        exact ih ht

theorem length_filter_above_lt {m : List (Nat × Nat)} {cur : Nat} {v : Nat}
    (h : lookupA m (cur + 1) = some v) :
    (m.filter fun p => decide (cur + 1 < p.1)).length <
      (m.filter fun p => decide (cur < p.1)).length := by
  have hmem : (cur + 1, v) ∈ m := lookupA_some_mem h
  clear h
  induction m with
  | nil => cases hmem
  | cons a t ih =>
    rcases List.mem_cons.mp hmem with heq | hmem'
    · subst heq
      have hmono :
          (t.filter fun p => decide (cur + 1 < p.1)).length ≤
            (t.filter fun p => decide (cur < p.1)).length := by
        refine length_filter_mono fun x _ hx => ?_
        simp only [decide_eq_true_eq] at hx ⊢
        omega
      have e1 : ((cur + 1, v) :: t).filter (fun p => decide (cur + 1 < p.1))
          = t.filter fun p => decide (cur + 1 < p.1) := by
        have hfalse : decide (cur + 1 < (cur + 1, v).1) = false := by
          simp
        simp [List.filter_cons, hfalse]
      have e2 : ((cur + 1, v) :: t).filter (fun p => decide (cur < p.1))
          = (cur + 1, v) :: t.filter fun p => decide (cur < p.1) := by
        have htrue : decide (cur < (cur + 1, v).1) = true := by
          simp
        simp [List.filter_cons, htrue]
      rw [e1, e2, List.length_cons]
      exact Nat.lt_succ_of_le hmono
    · have step := ih hmem'
      by_cases h1 : cur + 1 < a.1
      · have h2 : cur < a.1 := by omega
        simp only [List.filter_cons, h1, h2, decide_True, if_true,
          List.length_cons]
        exact Nat.succ_lt_succ step
      · by_cases h2 : cur < a.1
        · simp only [List.filter_cons, h1, h2, decide_True, decide_False,
            if_true, if_false, List.length_cons]
          exact Nat.lt_succ_of_lt step
        · simp only [List.filter_cons, h1, h2, decide_False, if_false]
          exact step

theorem scanFresh_spec (m : List (Nat × Nat)) :
    ∀ (fuel cur : Nat),
      (m.filter fun p => decide (cur < p.1)).length < fuel →
      cur < scanFresh m fuel cur ∧ lookupA m (scanFresh m fuel cur) = none := by
  intro fuel
  induction fuel with
  | zero => intro cur h; omega
  | succ fuel ih =>
    intro cur h
    by_cases hc : lookupA m (cur + 1) = none
    · have hcond : cur + 1 ≠ 0 ∧ lookupA m (cur + 1) = none :=
        ⟨Nat.succ_ne_zero _, hc⟩
      rw [scanFresh, if_pos hcond]
      exact ⟨Nat.lt_succ_self _, hc⟩
    · have hcond : ¬(cur + 1 ≠ 0 ∧ lookupA m (cur + 1) = none) := by
        intro hand
        exact hc hand.2
      rw [scanFresh, if_neg hcond]
      obtain ⟨v, hv⟩ : ∃ v, lookupA m (cur + 1) = some v := by
        cases hlook : lookupA m (cur + 1) with
        | none => exact absurd hlook hc
        | some v => exact ⟨v, rfl⟩
      have hlt := length_filter_above_lt hv
      have hfuel : (m.filter fun p => decide (cur + 1 < p.1)).length < fuel := by
        omega
      obtain ⟨hgt, hnone⟩ := ih (cur + 1) hfuel
      exact ⟨Nat.lt_trans (Nat.lt_succ_self _) hgt, hnone⟩

theorem freshLocal_spec (m : List (Nat × Nat)) (next : Nat) :
    next < freshLocal m next ∧ lookupA m (freshLocal m next) = none := by
  refine scanFresh_spec m (m.length + 1) next ?_
  have := List.length_filter_le (fun p => decide (next < p.1)) m
  omega

theorem freshLocal_ne_zero (m : List (Nat × Nat)) (next : Nat) :
    freshLocal m next ≠ 0 := by
  have := (freshLocal_spec m next).1
  omega

/-! ### Auxiliary lemmas for the table invariant -/

theorem lookupA_none_of_bound {m : List (Nat × Nat)} {B : Nat}
    (hb : ∀ p ∈ m, p.1 ≤ B) {k : Nat} (hk : B < k) : lookupA m k = none := by
  cases h : lookupA m k with
  | none => rfl
  | some v =>
    have := hb _ (lookupA_some_mem h)
    simp only at this
    omega

theorem emplaceA_of_none {κ β : Type} [DecidableEq κ] {m : List (κ × β)}
    {k : κ} {v : β} (h : lookupA m k = none) :
    emplaceA m k v = (k, v) :: m := by
  unfold emplaceA
  rw [h]

theorem emplaceA_of_some {κ β : Type} [DecidableEq κ] {m : List (κ × β)}
    {k : κ} {v w : β} (h : lookupA m k = some w) : emplaceA m k v = m := by
  unfold emplaceA
  rw [h]

theorem GlobalNameSpace.deleteName_nextGlobal (g : GlobalNameSpace)
    (t n : Nat) : (g.deleteName t n).nextGlobal = g.nextGlobal := by
  unfold GlobalNameSpace.deleteName
  split <;> rfl

theorem GlobalNameSpace.genName_valid (g : GlobalNameSpace) {t : Nat}
    (h5 : t < NUM_OBJECT_TYPES) (hsh : t ≠ SHADER) :
    g.genName t = (g.nextGlobal + 1, { g with nextGlobal := g.nextGlobal + 1 }) := by
  unfold GlobalNameSpace.genName
  rw [if_neg (by omega), if_neg hsh]

theorem inverse_insert_fresh {l2g g2l : List (Nat × Nat)} {l G : Nat}
    (hnd1 : (l2g.map Prod.fst).Nodup)
    (hnd2 : (g2l.map Prod.fst).Nodup)
    (hc1 : ∀ p ∈ l2g, (p.2, p.1) ∈ g2l)
    (hc2 : ∀ p ∈ g2l, (p.2, p.1) ∈ l2g)
    (hl : lookupA l2g l = none)
    (hG : lookupA g2l G = none) :
    ((setA l2g l G).map Prod.fst).Nodup ∧
    ((setA g2l G l).map Prod.fst).Nodup ∧
    (∀ p ∈ setA l2g l G, (p.2, p.1) ∈ setA g2l G l) ∧
    (∀ p ∈ setA g2l G l, (p.2, p.1) ∈ setA l2g l G) := by
  refine ⟨nodup_keys_setA hnd1, nodup_keys_setA hnd2, ?_, ?_⟩
  · intro p hp
    rcases mem_setA.mp hp with heq | ⟨hm, hne⟩
    · subst heq
      exact mem_setA.mpr (Or.inl rfl)
    · refine mem_setA.mpr (Or.inr ⟨hc1 p hm, ?_⟩)
      intro hpG
      have hmem : (G, p.1) ∈ g2l := by
        have h := hc1 p hm
        rwa [show (p.2 : Nat) = G from hpG] at h
      exact lookupA_isSome_of_mem hmem hG
  · intro p hp
    rcases mem_setA.mp hp with heq | ⟨hm, hne⟩
    · subst heq
      exact mem_setA.mpr (Or.inl rfl)
    · refine mem_setA.mpr (Or.inr ⟨hc2 p hm, ?_⟩)
      intro hpl
      have hmem : (l, p.1) ∈ l2g := by
        have h := hc2 p hm
        rwa [show (p.2 : Nat) = l from hpl] at h
      exact lookupA_isSome_of_mem hmem hl

theorem WFTables_genName (ns : NameSpace) (gns : GlobalNameSpace)
    (r : Nat) (gg gl : Bool)
    (h5 : ns.m_type < NUM_OBJECT_TYPES) (hsh : ns.m_type ≠ SHADER)
    (hwf : ns.WFTables gns)
    (hok : gg = true ∧ gl = false → lookupA ns.m_localToGlobalMap r = none) :
    (ns.genName gns r gg gl).2.1.WFTables (ns.genName gns r gg gl).2.2 := by
  rcases hwf with ⟨⟨hnd1, hnd2, hc1, hc2⟩, hb1, hb2⟩
  have hG : lookupA ns.m_globalToLocalMap (gns.nextGlobal + 1) = none :=
    lookupA_none_of_bound hb2 (Nat.lt_succ_self _)
  cases gg with
  | false =>
    cases gl with
    | false => exact ⟨⟨hnd1, hnd2, hc1, hc2⟩, hb1, hb2⟩
    | true => exact ⟨⟨hnd1, hnd2, hc1, hc2⟩, hb1, hb2⟩
  | true =>
    cases gl with
    | false =>
      have hl : lookupA ns.m_localToGlobalMap r = none := hok ⟨rfl, rfl⟩
      have hins := inverse_insert_fresh hnd1 hnd2 hc1 hc2 hl hG
      simp only [NameSpace.genName, if_true, if_false, Bool.false_eq_true,
        GlobalNameSpace.genName_valid gns h5 hsh]
      refine ⟨⟨hins.1, hins.2.1, hins.2.2.1, hins.2.2.2⟩, ?_, ?_⟩
      · intro p hp
        rcases mem_setA.mp hp with heq | ⟨hm, _⟩
        · subst heq
          exact Nat.le_refl _
        · exact Nat.le_succ_of_le (hb1 p hm)
      · intro p hp
        rcases mem_setA.mp hp with heq | ⟨hm, _⟩
        · subst heq
          exact Nat.le_refl _
        · exact Nat.le_succ_of_le (hb2 p hm)
    | true =>
      have hl : lookupA ns.m_localToGlobalMap
          (freshLocal ns.m_localToGlobalMap ns.m_nextName) = none :=
        (freshLocal_spec _ _).2
      have hins := inverse_insert_fresh hnd1 hnd2 hc1 hc2 hl hG
      simp only [NameSpace.genName, if_true,
        GlobalNameSpace.genName_valid gns h5 hsh]
      refine ⟨⟨hins.1, hins.2.1, hins.2.2.1, hins.2.2.2⟩, ?_, ?_⟩
      · intro p hp
        rcases mem_setA.mp hp with heq | ⟨hm, _⟩
        · subst heq
          exact Nat.le_refl _
        · exact Nat.le_succ_of_le (hb1 p hm)
      · intro p hp
        rcases mem_setA.mp hp with heq | ⟨hm, _⟩
        · subst heq
          exact Nat.le_refl _
        · exact Nat.le_succ_of_le (hb2 p hm)

theorem WFTables_deleteName (ns : NameSpace) (gns : GlobalNameSpace) (l : Nat)
    (hwf : ns.WFTables gns) :
    (ns.deleteName gns l).1.WFTables (ns.deleteName gns l).2 := by
  rcases hwf with ⟨⟨hnd1, hnd2, hc1, hc2⟩, hb1, hb2⟩
  cases hl : lookupA ns.m_localToGlobalMap l with
  | none =>
    simp only [NameSpace.deleteName, hl]
    exact ⟨⟨hnd1, hnd2, hc1, hc2⟩, hb1, hb2⟩
  | some g =>
    have hlg : (l, g) ∈ ns.m_localToGlobalMap := lookupA_some_mem hl
    have hgl : (g, l) ∈ ns.m_globalToLocalMap := hc1 _ hlg
    have hnext : (if ns.m_type ≠ TEXTURE then gns.deleteName ns.m_type g
        else gns).nextGlobal = gns.nextGlobal := by
      split
      · exact GlobalNameSpace.deleteName_nextGlobal gns ns.m_type g
      · rfl
    simp only [NameSpace.deleteName, hl]
    refine ⟨⟨nodup_keys_eraseA hnd1, nodup_keys_eraseA hnd2, ?_, ?_⟩, ?_, ?_⟩
    · intro p hp
      obtain ⟨hm, hne⟩ := mem_eraseA.mp hp
      refine mem_eraseA.mpr ⟨hc1 p hm, ?_⟩
      intro hpg
      have hmem : (g, p.1) ∈ ns.m_globalToLocalMap := by
        have h := hc1 p hm
        rwa [show (p.2 : Nat) = g from hpg] at h
      exact hne (mem_value_unique_of_nodup hnd2 hmem hgl)
    · intro p hp
      obtain ⟨hm, hne⟩ := mem_eraseA.mp hp
      refine mem_eraseA.mpr ⟨hc2 p hm, ?_⟩
      intro hpl
      have hmem : (l, p.1) ∈ ns.m_localToGlobalMap := by
        have h := hc2 p hm
        rwa [show (p.2 : Nat) = l from hpl] at h
      exact hne (mem_value_unique_of_nodup hnd1 hmem hlg)
    · intro p hp
      rw [hnext]
      exact hb1 p (mem_eraseA.mp hp).1
    · intro p hp
      rw [hnext]
      exact hb2 p (mem_eraseA.mp hp).1

theorem WFTables_replaceGlobalName (ns : NameSpace) (gns : GlobalNameSpace)
    (l newG : Nat) (hwf : ns.WFTables gns)
    (hok1 : lookupA ns.m_globalToLocalMap newG = none)
    (hok2 : newG ≤ gns.nextGlobal) :
    (ns.replaceGlobalName gns l newG).1.WFTables
      (ns.replaceGlobalName gns l newG).2 := by
  rcases hwf with ⟨⟨hnd1, hnd2, hc1, hc2⟩, hb1, hb2⟩
  cases hl : lookupA ns.m_localToGlobalMap l with
  | none =>
    simp only [NameSpace.replaceGlobalName, hl]
    exact ⟨⟨hnd1, hnd2, hc1, hc2⟩, hb1, hb2⟩
  | some oldG =>
    have hlg : (l, oldG) ∈ ns.m_localToGlobalMap := lookupA_some_mem hl
    have hgl : (oldG, l) ∈ ns.m_globalToLocalMap := hc1 _ hlg
    have herase : lookupA (eraseA ns.m_globalToLocalMap oldG) newG = none := by
      by_cases hng : newG = oldG
      · subst hng
        exact lookupA_eraseA_self
      · rw [lookupA_eraseA_ne hng]
        exact hok1
    have hnext : (if ns.m_type ≠ TEXTURE then gns.deleteName ns.m_type oldG
        else gns).nextGlobal = gns.nextGlobal := by
      split
      · exact GlobalNameSpace.deleteName_nextGlobal gns ns.m_type oldG
      · rfl
    simp only [NameSpace.replaceGlobalName, hl, emplaceA_of_none herase]
    refine ⟨⟨nodup_keys_setA hnd1, ?_, ?_, ?_⟩, ?_, ?_⟩
    · simp only [List.map_cons, List.nodup_cons]
      refine ⟨fun hmem => ?_, nodup_keys_eraseA hnd2⟩
      exact lookupA_none_iff.mp herase hmem
    · intro p hp
      rcases mem_setA.mp hp with heq | ⟨hm, hne⟩
      · subst heq
        exact List.mem_cons_self _ _
      · refine List.mem_cons_of_mem _ (mem_eraseA.mpr ⟨hc1 p hm, ?_⟩)
        intro hpg
        have hmem : (oldG, p.1) ∈ ns.m_globalToLocalMap := by
          have h := hc1 p hm
          rwa [show (p.2 : Nat) = oldG from hpg] at h
        exact hne (mem_value_unique_of_nodup hnd2 hmem hgl)
    · intro p hp
      rcases List.mem_cons.mp hp with heq | hp'
      · subst heq
        exact mem_setA.mpr (Or.inl rfl)
      · obtain ⟨hm, hne⟩ := mem_eraseA.mp hp'
        refine mem_setA.mpr (Or.inr ⟨hc2 p hm, ?_⟩)
        intro hpl
        have hmem : (l, p.1) ∈ ns.m_localToGlobalMap := by
          have h := hc2 p hm
          rwa [show (p.2 : Nat) = l from hpl] at h
        exact hne (mem_value_unique_of_nodup hnd1 hmem hlg)
    · intro p hp
      rw [hnext]
      rcases mem_setA.mp hp with heq | ⟨hm, _⟩
      · subst heq
        exact hok2
      · exact hb1 p hm
    · intro p hp
      rw [hnext]
      rcases List.mem_cons.mp hp with heq | hp'
      · subst heq
        exact hok2
      · exact hb2 p (mem_eraseA.mp hp').1

theorem NTOp_apply_m_type (op : NTOp) (ns : NameSpace) (gns : GlobalNameSpace) :
    (op.apply ns gns).1.m_type = ns.m_type := by
  cases op with
  | gen r gg gl =>
    cases gg <;> cases gl <;> simp [NTOp.apply, NameSpace.genName]
  | del l =>
    cases hl : lookupA ns.m_localToGlobalMap l <;>
      simp [NTOp.apply, NameSpace.deleteName, hl]
  | rebind l g =>
    cases hl : lookupA ns.m_localToGlobalMap l <;>
      simp [NTOp.apply, NameSpace.replaceGlobalName, hl]

theorem WFTables_step (op : NTOp) (ns : NameSpace) (gns : GlobalNameSpace)
    (h5 : ns.m_type < NUM_OBJECT_TYPES) (hsh : ns.m_type ≠ SHADER)
    (hwf : ns.WFTables gns) (hok : op.ok ns gns) :
    (op.apply ns gns).1.WFTables (op.apply ns gns).2 := by
  cases op with
  | gen r gg gl => exact WFTables_genName ns gns r gg gl h5 hsh hwf hok
  | del l => exact WFTables_deleteName ns gns l hwf
  | rebind l g =>
    exact WFTables_replaceGlobalName ns gns l g hwf hok.1 hok.2

/-! ### Texture reference counting -/

theorem texRefLookup_some_map {sg : ShareGroup} {g c : Nat}
    (h : texRefLookup sg g = some c) :
    ∃ map, sg.m_globalTextureRefCounter = some map ∧ lookupA map g = some c := by
  cases hm : sg.m_globalTextureRefCounter with
  | none =>
    rw [texRefLookup, hm, Option.getD_none] at h
    simp [lookupA] at h
  | some map =>
    refine ⟨map, rfl, ?_⟩
    rwa [texRefLookup, hm, Option.getD_some] at h

theorem incTexRefCounter_count {sg : ShareGroup} {g c : Nat}
    (h : texRefLookup sg g = some c) :
    (sg.incTexRefCounter g).1 = c + 1 ∧
    texRefLookup (sg.incTexRefCounter g).2 g = some (c + 1) := by
  rw [texRefLookup] at h
  constructor
  · simp [ShareGroup.incTexRefCounter, ShareGroup.incTexRefCounterNoLock, h]
  · simp [ShareGroup.incTexRefCounter, ShareGroup.incTexRefCounterNoLock,
      texRefLookup, h, lookupA_setA_self]

theorem acqIter_count (g : Nat) :
    ∀ (n : Nat) (sg : ShareGroup) (c : Nat), texRefLookup sg g = some c →
      texRefLookup (acqIter g n sg) g = some (c + n) := by
  intro n
  induction n with
  | zero =>
    intro sg c h
    simpa using h
  | succ n ih =>
    intro sg c h
    have step := (incTexRefCounter_count h).2
    have hrec := ih _ _ step
    rw [acqIter, show c + (n + 1) = c + 1 + n by omega]
    exact hrec

theorem decTex_last {sg : ShareGroup} (gns : GlobalNameSpace) {g : Nat}
    (h : texRefLookup sg g = some 1) :
    ∃ sg', sg.decTexRefCounterAndReleaseIf0 gns g
        = some (0, sg', gns.deleteName TEXTURE g) ∧
      texRefLookup sg' g = none := by
  obtain ⟨map, hm, hl⟩ := texRefLookup_some_map h
  refine ⟨{ sg with m_globalTextureRefCounter := some (eraseA map g) }, ?_, ?_⟩
  · simp [ShareGroup.decTexRefCounterAndReleaseIf0, hm, hl]
  · simp [texRefLookup, lookupA_eraseA_self]

theorem decTex_pos {sg : ShareGroup} (gns : GlobalNameSpace) {g c : Nat}
    (h : texRefLookup sg g = some (c + 2)) :
    ∃ sg', sg.decTexRefCounterAndReleaseIf0 gns g = some (c + 1, sg', gns) ∧
      texRefLookup sg' g = some (c + 1) := by
  obtain ⟨map, hm, hl⟩ := texRefLookup_some_map h
  refine ⟨{ sg with
      m_globalTextureRefCounter := some (setA map g (c + 1)) }, ?_, ?_⟩
  · simp [ShareGroup.decTexRefCounterAndReleaseIf0, hm, hl]
  · simp [texRefLookup, lookupA_setA_self]

theorem GlobalNameSpace.deleteName_texture (gns : GlobalNameSpace) (g : Nat) :
    (gns.deleteName TEXTURE g).deleted = (TEXTURE, g) :: gns.deleted := by
  rw [GlobalNameSpace.deleteName, if_neg (by decide)]

theorem relIter_release (g : Nat) :
    ∀ (n : Nat) (sg : ShareGroup) (gns : GlobalNameSpace),
      texRefLookup sg g = some (n + 1) →
      ∃ sgF gnsF, relIter g (n + 1) sg gns = some (0, sgF, gnsF) ∧
        texRefLookup sgF g = none ∧
        gnsF.deleted = (TEXTURE, g) :: gns.deleted := by
  intro n
  induction n with
  | zero =>
    intro sg gns h
    obtain ⟨sg', heq, hnone⟩ := decTex_last gns h
    exact ⟨sg', gns.deleteName TEXTURE g, heq, hnone,
      GlobalNameSpace.deleteName_texture gns g⟩
  | succ n ih =>
    intro sg gns h
    obtain ⟨sg', heq, hsome⟩ := decTex_pos gns (c := n) h
    obtain ⟨sgF, gnsF, hrun, hnone, hdel⟩ := ih sg' gns hsome
    refine ⟨sgF, gnsF, ?_, hnone, hdel⟩
    rw [relIter, heq]
    exact hrun

theorem genName_global_parts (ns : NameSpace) (gns : GlobalNameSpace)
    (pl : Nat) (b : Bool)
    (h5 : ns.m_type < NUM_OBJECT_TYPES) (hsh : ns.m_type ≠ SHADER) :
    (ns.genName gns pl true b).2.1.m_localToGlobalMap
        = setA ns.m_localToGlobalMap (ns.genName gns pl true b).1
            (gns.nextGlobal + 1) ∧
    (ns.genName gns pl true b).2.2
        = { gns with nextGlobal := gns.nextGlobal + 1 } := by
  cases b <;>
    simp [NameSpace.genName, GlobalNameSpace.genName_valid gns h5 hsh]

theorem ShareGroup.genName_texture_eq (sg : ShareGroup) (gns : GlobalNameSpace)
    (pl : Nat) (b : Bool) :
    sg.genName gns TEXTURE pl b
      = (((sg.nsAt TEXTURE).genName gns pl true b).1,
         ({ sg with
            m_nameSpace := sg.m_nameSpace.set TEXTURE
              ((sg.nsAt TEXTURE).genName gns pl true b).2.1
           }.incTexRefCounterNoLock
            (((sg.nsAt TEXTURE).genName gns pl true b).2.1.getGlobalName
              ((sg.nsAt TEXTURE).genName gns pl true b).1)).2,
         ((sg.nsAt TEXTURE).genName gns pl true b).2.2) := by
  rfl

theorem genName_texture_ref (sg : ShareGroup) (gns : GlobalNameSpace)
    (pl : Nat) (b : Bool)
    (htype : (sg.nsAt TEXTURE).m_type = TEXTURE)
    (hfresh : texRefLookup sg (gns.nextGlobal + 1) = none) :
    texRefLookup (sg.genName gns TEXTURE pl b).2.1 (gns.nextGlobal + 1)
        = some 1 ∧
    (sg.genName gns TEXTURE pl b).2.2.deleted = gns.deleted := by
  have h5 : (sg.nsAt TEXTURE).m_type < NUM_OBJECT_TYPES := by
    rw [htype]; decide
  have hsh : (sg.nsAt TEXTURE).m_type ≠ SHADER := by
    rw [htype]; decide
  obtain ⟨hmap, hgns⟩ := genName_global_parts (sg.nsAt TEXTURE) gns pl b h5 hsh
  rw [ShareGroup.genName_texture_eq]
  have hGG : ((sg.nsAt TEXTURE).genName gns pl true b).2.1.getGlobalName
      ((sg.nsAt TEXTURE).genName gns pl true b).1 = gns.nextGlobal + 1 := by
    rw [NameSpace.getGlobalName, hmap, lookupA_setA_self]
    rfl
  constructor
  · dsimp only
    rw [hGG]
    rw [texRefLookup] at hfresh
    simp [ShareGroup.incTexRefCounterNoLock, texRefLookup, hfresh,
      lookupA_setA_self]
  · dsimp only
    rw [hgns]

theorem getD_set_self {α : Type} :
    ∀ (xs : List α) (n : Nat) (v d : α), n < xs.length →
      (xs.set n v).getD n d = v
  | [], _, _, _, h => absurd h (by simp)
  | _ :: _, 0, _, _, _ => rfl
  | _ :: t, n + 1, v, d, h => getD_set_self t n v d (by simpa using h)

theorem set_getD_eq_self {α : Type} :
    ∀ (xs : List α) (n : Nat) (d : α), n < xs.length →
      xs.set n (xs.getD n d) = xs
  | [], _, _, h => absurd h (by simp)
  | _ :: _, 0, _, _ => rfl
  | a :: t, n + 1, d, h => by
    have hrec := set_getD_eq_self t n d (by simpa using h)
    show a :: t.set n ((a :: t).getD (n + 1) d) = a :: t
    rw [show (a :: t).getD (n + 1) d = t.getD n d from rfl, hrec]

/-! ### The claims -/

/-- Claim C1: for a global name `g` first produced through
`ShareGroup::genName(TEXTURE, ...)` (in the model the backend hands out
`gns.nextGlobal + 1`; "first produced" is the hypothesis that `g` carries no
ref-count entry yet), the ref count of `g` is exactly 1 right after the
call; after `n` further `incTexRefCounter(g)` calls, `n + 1`
`decTexRefCounterAndReleaseIf0(g)` calls return 0 on the final call, leave
`g` absent from the ref-count table, and push exactly one backend deletion
`(TEXTURE, g)`, on that final release. -/
theorem claim_c1_texture_refcount_lifecycle (sg : ShareGroup)
    (gns : GlobalNameSpace) (pl n : Nat) (b : Bool)
    (htype : (sg.nsAt TEXTURE).m_type = TEXTURE)
    (hfresh : texRefLookup sg (gns.nextGlobal + 1) = none) :
    texRefLookup (sg.genName gns TEXTURE pl b).2.1 (gns.nextGlobal + 1)
        = some 1 ∧
    ∃ sgF gnsF,
      relIter (gns.nextGlobal + 1) (n + 1)
          (acqIter (gns.nextGlobal + 1) n (sg.genName gns TEXTURE pl b).2.1)
          (sg.genName gns TEXTURE pl b).2.2
        = some (0, sgF, gnsF) ∧
      texRefLookup sgF (gns.nextGlobal + 1) = none ∧
      gnsF.deleted = (TEXTURE, gns.nextGlobal + 1) :: gns.deleted := by
  obtain ⟨h1, hdel⟩ := genName_texture_ref sg gns pl b htype hfresh
  refine ⟨h1, ?_⟩
  have hacq := acqIter_count (gns.nextGlobal + 1) n _ 1 h1
  rw [show 1 + n = n + 1 by omega] at hacq
  obtain ⟨sgF, gnsF, hrun, hnone, hdelF⟩ :=
    relIter_release (gns.nextGlobal + 1) n _
      (sg.genName gns TEXTURE pl b).2.2 hacq
  exact ⟨sgF, gnsF, hrun, hnone, by rw [hdelF, hdel]⟩

/-- Witness for C1 on the empty group (`n = 1`: one extra acquire, two
releases). -/
theorem claim_c1_witness :
    texRefLookup
        (ShareGroup.init.genName GlobalNameSpace.init TEXTURE 0 true).2.1
        (GlobalNameSpace.init.nextGlobal + 1) = some 1 ∧
    ∃ sgF gnsF,
      relIter (GlobalNameSpace.init.nextGlobal + 1) (1 + 1)
          (acqIter (GlobalNameSpace.init.nextGlobal + 1) 1
            (ShareGroup.init.genName GlobalNameSpace.init TEXTURE 0 true).2.1)
          (ShareGroup.init.genName GlobalNameSpace.init TEXTURE 0 true).2.2
        = some (0, sgF, gnsF) ∧
      texRefLookup sgF (GlobalNameSpace.init.nextGlobal + 1) = none ∧
      gnsF.deleted = (TEXTURE, GlobalNameSpace.init.nextGlobal + 1)
          :: GlobalNameSpace.init.deleted :=
  claim_c1_texture_refcount_lifecycle ShareGroup.init GlobalNameSpace.init
    0 1 true (by decide) (by decide)

/-- Claim C2 as frozen is false: a generate with `allocateGlobal` set,
`allocateLocal` clear and a `requestedLocal` already present in the table
overwrites the local-to-global entry but leaves the stale global-to-local
entry behind, so the maps are no longer inverses. -/
theorem claim_c2_counterexample :
    ¬ inverseMaps
        (runOps [NTOp.gen 1 true false, NTOp.gen 1 true false]
          (initialNameSpace VERTEXBUFFER, GlobalNameSpace.init)).1 := by
  decide

/-- Claim C2 amended: on a table of an in-range, non-Shader type, the two
maps stay exact inverses under every sequence of generate / delete / rebind
operations in which each generate that uses an explicit requested local
name (`allocateGlobal` set, `allocateLocal` clear) is given a local name
absent at that point, and each rebind installs a previously allocated
global name that is currently not a key of the global-to-local map.  Every
observation point is covered because every prefix of such a sequence again
satisfies the hypotheses. -/
theorem claim_c2_inverse_maps_preserved (ops : List NTOp) (ns : NameSpace)
    (gns : GlobalNameSpace)
    (h5 : ns.m_type < NUM_OBJECT_TYPES) (hsh : ns.m_type ≠ SHADER)
    (hwf : ns.WFTables gns) (hok : okRun ops ns gns) :
    inverseMaps (runOps ops (ns, gns)).1 := by
  induction ops generalizing ns gns with
  | nil => exact hwf.1
  | cons op rest ih =>
    have hstep := WFTables_step op ns gns h5 hsh hwf hok.1
    have htype := NTOp_apply_m_type op ns gns
    exact ih (op.apply ns gns).1 (op.apply ns gns).2
      (by rw [htype]; exact h5) (by rw [htype]; exact hsh) hstep hok.2

/-- Witness for C2 on a fresh vertex-buffer table: generate a fresh name,
delete it, then generate with an explicit (now absent) requested local. -/
theorem claim_c2_witness :
    inverseMaps
      (runOps [NTOp.gen 0 true true, NTOp.del 1, NTOp.gen 5 true false]
        (initialNameSpace VERTEXBUFFER, GlobalNameSpace.init)).1 :=
  claim_c2_inverse_maps_preserved
    [NTOp.gen 0 true true, NTOp.del 1, NTOp.gen 5 true false]
    (initialNameSpace VERTEXBUFFER) GlobalNameSpace.init
    (by decide) (by decide) (by decide) (by decide)

/-- Claim C3 as frozen is false: `setObjectData` uses `emplace`, which never
overwrites, so a second store under the same `(type, local)` key leaves the
first payload in place. -/
theorem claim_c3_counterexample :
    (((ShareGroup.init.setObjectData 0 1 5).setObjectData 0 1 7).getObjectData
        0 1).1 = some 5 ∧
    (((ShareGroup.init.setObjectData 0 1 5).setObjectData 0 1 7).getObjectData
        0 1).1 ≠ some 7 := by
  decide

/-- Claim C3 amended: for an in-range type, `setObjectData` inserts the
payload when the key is absent (an immediately following `getObjectData`
returns it), and leaves an existing entry untouched when the key is present
(an immediately following `getObjectData` returns the previously stored
payload). -/
theorem claim_c3_set_get_metadata (sg : ShareGroup) (t l d : Nat)
    (ht : t < NUM_OBJECT_TYPES) :
    (odLookup sg t l = none →
      ((sg.setObjectData t l d).getObjectData t l).1 = some d) ∧
    (∀ v, odLookup sg t l = some v →
      ((sg.setObjectData t l d).getObjectData t l).1 = some v) := by
  have hlt : ¬ NUM_OBJECT_TYPES ≤ t := by omega
  constructor
  · intro habs
    rw [odLookup] at habs
    simp [ShareGroup.setObjectData, ShareGroup.getObjectData, hlt,
      emplaceA_of_none habs, lookupA]
  · intro v hv
    rw [odLookup] at hv
    simp [ShareGroup.setObjectData, ShareGroup.getObjectData, hlt,
      emplaceA_of_some hv, hv]

/-- Witness for C3: a first store is readable back; a second store under
the same key still reads back the first payload. -/
theorem claim_c3_witness :
    ((ShareGroup.init.setObjectData 0 1 5).getObjectData 0 1).1 = some 5 ∧
    (((ShareGroup.init.setObjectData 0 1 5).setObjectData 0 1 7).getObjectData
        0 1).1 = some 5 :=
  ⟨(claim_c3_set_get_metadata ShareGroup.init 0 1 5 (by decide)).1 (by decide),
   (claim_c3_set_get_metadata (ShareGroup.init.setObjectData 0 1 5) 0 1 7
      (by decide)).2 5 (by decide)⟩

/-- Claim C4: with an out-of-range object type every `ShareGroup` entry
point returns its not-found sentinel (0, `false`, or empty) and leaves the
group state and the backend state untouched. -/
theorem claim_c4_out_of_range_noop (sg : ShareGroup) (gns : GlobalNameSpace)
    (t l g d : Nat) (b : Bool) (ht : NUM_OBJECT_TYPES ≤ t) :
    sg.genName gns t l b = (0, sg, gns) ∧
    sg.genGlobalName gns t = (0, sg, gns) ∧
    sg.getGlobalName t l = (0, sg) ∧
    sg.getLocalName t g = (0, sg) ∧
    sg.isObject t l = (false, sg) ∧
    sg.deleteName gns t l = (sg, gns) ∧
    sg.replaceGlobalName gns t l g = (sg, gns) ∧
    sg.setObjectData t l d = sg ∧
    sg.getObjectData t l = (none, sg) := by
  refine ⟨?_, ?_, ?_, ?_, ?_, ?_, ?_, ?_, ?_⟩ <;>
    simp [ShareGroup.genName, ShareGroup.genGlobalName,
      ShareGroup.getGlobalName, ShareGroup.getLocalName, ShareGroup.isObject,
      ShareGroup.deleteName, ShareGroup.replaceGlobalName,
      ShareGroup.setObjectData, ShareGroup.getObjectData, ht]

/-- Witness for C4 at the first out-of-range type value. -/
theorem claim_c4_witness :
    ShareGroup.init.genName GlobalNameSpace.init NUM_OBJECT_TYPES 0 true
      = (0, ShareGroup.init, GlobalNameSpace.init) ∧
    ShareGroup.init.genGlobalName GlobalNameSpace.init NUM_OBJECT_TYPES
      = (0, ShareGroup.init, GlobalNameSpace.init) ∧
    ShareGroup.init.getGlobalName NUM_OBJECT_TYPES 0 = (0, ShareGroup.init) ∧
    ShareGroup.init.getLocalName NUM_OBJECT_TYPES 0 = (0, ShareGroup.init) ∧
    ShareGroup.init.isObject NUM_OBJECT_TYPES 0 = (false, ShareGroup.init) ∧
    ShareGroup.init.deleteName GlobalNameSpace.init NUM_OBJECT_TYPES 0
      = (ShareGroup.init, GlobalNameSpace.init) ∧
    ShareGroup.init.replaceGlobalName GlobalNameSpace.init NUM_OBJECT_TYPES 0 0
      = (ShareGroup.init, GlobalNameSpace.init) ∧
    ShareGroup.init.setObjectData NUM_OBJECT_TYPES 0 0 = ShareGroup.init ∧
    ShareGroup.init.getObjectData NUM_OBJECT_TYPES 0 = (none, ShareGroup.init) :=
  claim_c4_out_of_range_noop ShareGroup.init GlobalNameSpace.init
    NUM_OBJECT_TYPES 0 0 0 true (by decide)

/-- Claim C5: `attachShareGroup(key, existingKey)` returns empty and leaves
the registry unchanged when `existingKey` is unregistered; otherwise it
returns `existingKey`'s group, binding `key` to that very group instance
(same group id, no new group allocated on the heap) when `key` was free,
and leaving the whole registry untouched when `key` was already bound. -/
theorem claim_c5_attach (mgr : ObjectNameManager) (key existingKey : Nat) :
    (mgr.getShareGroup existingKey = none →
      mgr.attachShareGroup key existingKey = (none, mgr)) ∧
    (∀ gid, mgr.getShareGroup existingKey = some gid →
      (mgr.attachShareGroup key existingKey).1 = some gid ∧
      (mgr.getShareGroup key = none →
        (mgr.attachShareGroup key existingKey).2.getShareGroup key
            = some gid ∧
        (mgr.attachShareGroup key existingKey).2.heap = mgr.heap) ∧
      (∀ gid0, mgr.getShareGroup key = some gid0 →
        (mgr.attachShareGroup key existingKey).2 = mgr)) := by
  constructor
  · intro h
    rw [ObjectNameManager.getShareGroup] at h
    simp [ObjectNameManager.attachShareGroup, h]
  · intro gid hg
    rw [ObjectNameManager.getShareGroup] at hg
    refine ⟨?_, ?_, ?_⟩
    · cases hk : lookupA mgr.m_groups key <;>
        simp [ObjectNameManager.attachShareGroup, hg, hk]
    · intro hnone
      rw [ObjectNameManager.getShareGroup] at hnone
      constructor
      · simp [ObjectNameManager.attachShareGroup, hg, hnone,
          ObjectNameManager.getShareGroup, lookupA]
      · simp [ObjectNameManager.attachShareGroup, hg, hnone]
    · intro gid0 h0
      rw [ObjectNameManager.getShareGroup] at h0
      simp [ObjectNameManager.attachShareGroup, hg, h0]

/-- Witness for C5: attaching a fresh key 2 to registered key 1 returns
key 1's group, binds key 2 to the same group id, and allocates nothing. -/
theorem claim_c5_witness :
    (mgrK1.attachShareGroup 2 1).1 = some 0 ∧
    (mgrK1.attachShareGroup 2 1).2.getShareGroup 2 = some 0 ∧
    (mgrK1.attachShareGroup 2 1).2.heap = mgrK1.heap := by
  have h := (claim_c5_attach mgrK1 2 1).2 0 (by decide)
  exact ⟨h.1, (h.2.1 (by decide)).1, (h.2.1 (by decide)).2⟩

/-- Claim C7: `deleteShareGroup(key)` removes exactly the registry entry of
`key`: a following lookup of `key` is empty, every other key keeps its
binding, and the group heap (hence every shared group instance and its
state) is untouched. -/
theorem claim_c7_remove (mgr : ObjectNameManager) (key : Nat) :
    (mgr.deleteShareGroup key).getShareGroup key = none ∧
    (∀ k, k ≠ key →
      (mgr.deleteShareGroup key).getShareGroup k = mgr.getShareGroup k) ∧
    (mgr.deleteShareGroup key).heap = mgr.heap := by
  refine ⟨?_, ?_, rfl⟩
  · rw [ObjectNameManager.getShareGroup]
    exact lookupA_eraseA_self
  · intro k hk
    rw [ObjectNameManager.getShareGroup, ObjectNameManager.getShareGroup]
    exact lookupA_eraseA_ne hk

/-- Witness for C7: after attaching key 2 to key 1's group, removing key 1
erases only key 1's binding; key 2 still resolves and the heap is intact. -/
theorem claim_c7_witness :
    ((mgrK1.attachShareGroup 2 1).2.deleteShareGroup 1).getShareGroup 1
        = none ∧
    ((mgrK1.attachShareGroup 2 1).2.deleteShareGroup 1).getShareGroup 2
        = (mgrK1.attachShareGroup 2 1).2.getShareGroup 2 ∧
    ((mgrK1.attachShareGroup 2 1).2.deleteShareGroup 1).heap
        = (mgrK1.attachShareGroup 2 1).2.heap := by
  have h := claim_c7_remove (mgrK1.attachShareGroup 2 1).2 1
  exact ⟨h.1, h.2.1 2 (by decide), h.2.2⟩

/-- Claim C6 as frozen is false: when the local name is absent from the
name table but a metadata entry for `(type, local)` exists, `deleteName`
still erases that metadata entry, so the call is not a no-op. -/
theorem claim_c6_counterexample :
    lookupA ((ShareGroup.init.setObjectData 0 1 5).nsAt 0).m_localToGlobalMap 1
        = none ∧
    ((ShareGroup.init.setObjectData 0 1 5).deleteName
        GlobalNameSpace.init 0 1).1
       ≠ ShareGroup.init.setObjectData 0 1 5 := by
  decide

/-- Claim C6 amended: for an in-range type on a well-formed group, when the
local name is present `deleteName` removes the table entry in both
directions and erases any metadata entry; it logs the backend deletion of
the old global name exactly for types other than Texture and Shader (the
backend skips Shader), and makes no backend call for Texture.  When the
local name is absent, the name tables and backend are untouched and any
metadata entry for `(type, local)` is still erased; the call is a full
no-op only when no such metadata entry exists. -/
theorem claim_c6_delete_name (sg : ShareGroup) (gns : GlobalNameSpace)
    (t l : Nat) (ht : t < NUM_OBJECT_TYPES)
    (hlen : sg.m_nameSpace.length = NUM_OBJECT_TYPES)
    (htype : (sg.nsAt t).m_type = t) :
    (∀ g, lookupA (sg.nsAt t).m_localToGlobalMap l = some g →
      lookupA ((sg.deleteName gns t l).1.nsAt t).m_localToGlobalMap l
          = none ∧
      lookupA ((sg.deleteName gns t l).1.nsAt t).m_globalToLocalMap g
          = none ∧
      odLookup (sg.deleteName gns t l).1 t l = none ∧
      (t ≠ TEXTURE → t ≠ SHADER →
        (sg.deleteName gns t l).2.deleted = (t, g) :: gns.deleted) ∧
      (t = TEXTURE ∨ t = SHADER → (sg.deleteName gns t l).2 = gns)) ∧
    (lookupA (sg.nsAt t).m_localToGlobalMap l = none →
      (sg.deleteName gns t l).2 = gns ∧
      (sg.deleteName gns t l).1.m_nameSpace = sg.m_nameSpace ∧
      odLookup (sg.deleteName gns t l).1 t l = none ∧
      (odLookup sg t l = none → (sg.deleteName gns t l).1 = sg)) := by
  have hlt : ¬ NUM_OBJECT_TYPES ≤ t := by omega
  have htl : t < sg.m_nameSpace.length := by omega
  constructor
  · intro g hg
    have hpair : (sg.nsAt t).deleteName gns l
        = ({ sg.nsAt t with
              m_globalToLocalMap := eraseA (sg.nsAt t).m_globalToLocalMap g,
              m_localToGlobalMap := eraseA (sg.nsAt t).m_localToGlobalMap l },
           if (sg.nsAt t).m_type ≠ TEXTURE
           then gns.deleteName (sg.nsAt t).m_type g else gns) := by
      simp [NameSpace.deleteName, hg]
    have hns : (sg.deleteName gns t l).1.nsAt t
        = { sg.nsAt t with
            m_globalToLocalMap := eraseA (sg.nsAt t).m_globalToLocalMap g,
            m_localToGlobalMap := eraseA (sg.nsAt t).m_localToGlobalMap l } := by
      rw [show (sg.deleteName gns t l).1.nsAt t
          = (sg.deleteName gns t l).1.m_nameSpace.getD t (initialNameSpace t)
        from rfl]
      simp only [ShareGroup.deleteName, if_neg hlt, hpair]
      exact getD_set_self _ _ _ _ htl
    have hgns : (sg.deleteName gns t l).2
        = if (sg.nsAt t).m_type ≠ TEXTURE
          then gns.deleteName (sg.nsAt t).m_type g else gns := by
      simp only [ShareGroup.deleteName, if_neg hlt, hpair]
    have hod : odLookup (sg.deleteName gns t l).1 t l = none := by
      cases hm : sg.m_objectsData with
      | none =>
        simp [ShareGroup.deleteName, if_neg hlt, odLookup, hm, lookupA]
      | some m =>
        simp [ShareGroup.deleteName, if_neg hlt, odLookup, hm,
          lookupA_eraseA_self]
    refine ⟨?_, ?_, hod, ?_, ?_⟩
    · rw [hns]
      exact lookupA_eraseA_self
    · rw [hns]
      exact lookupA_eraseA_self
    · intro ht1 ht2
      rw [hgns, htype, if_pos ht1, GlobalNameSpace.deleteName, if_neg ht2]
    · intro hts
      rw [hgns, htype]
      rcases hts with h1 | h1
      · subst h1
        rw [if_neg (by simp)]
      · subst h1
        rw [if_pos (by decide), GlobalNameSpace.deleteName, if_pos rfl]
  · intro hnone
    have hpair : (sg.nsAt t).deleteName gns l = (sg.nsAt t, gns) := by
      simp [NameSpace.deleteName, hnone]
    have hsetns : sg.m_nameSpace.set t (sg.nsAt t) = sg.m_nameSpace := by
      rw [ShareGroup.nsAt]
      exact set_getD_eq_self _ _ _ htl
    refine ⟨?_, ?_, ?_, ?_⟩
    · simp only [ShareGroup.deleteName, if_neg hlt, hpair]
    · simp only [ShareGroup.deleteName, if_neg hlt, hpair]
      exact hsetns
    · cases hm : sg.m_objectsData with
      | none =>
        simp [ShareGroup.deleteName, if_neg hlt, odLookup, hm, lookupA]
      | some m =>
        simp [ShareGroup.deleteName, if_neg hlt, odLookup, hm,
          lookupA_eraseA_self]
    · intro hodnone
      rw [odLookup] at hodnone
      cases hm : sg.m_objectsData with
      | none =>
        simp only [ShareGroup.deleteName, if_neg hlt, hpair, hsetns, hm]
        rw [← hm]
      | some m =>
        have hera : eraseA m (t, l) = m := by
          refine eraseA_of_lookupA_none ?_
          rwa [hm, Option.getD_some] at hodnone
        simp only [ShareGroup.deleteName, if_neg hlt, hpair, hsetns, hm, hera]
        rw [← hm]

/-- Witness for C6: deleting the freshly generated vertex-buffer local 1
clears the table entry and logs exactly one backend deletion of its old
global name. -/
theorem claim_c6_witness :
    lookupA ((vbDemo.2.1.deleteName vbDemo.2.2 0 1).1.nsAt 0).m_localToGlobalMap
        1 = none ∧
    (vbDemo.2.1.deleteName vbDemo.2.2 0 1).2.deleted
        = (0, 1) :: vbDemo.2.2.deleted := by
  have h := (claim_c6_delete_name vbDemo.2.1 vbDemo.2.2 0 1 (by decide)
      (by decide) (by decide)).1 1 (by decide)
  exact ⟨h.1, h.2.2.2.1 (by decide) (by decide)⟩

/-- Claim C8 as frozen is false: a generate with `allocateLocal` clear,
`requestedLocal = 0` and `allocateGlobal` set installs 0 as a key of the
local-to-global map. -/
theorem claim_c8_counterexample :
    lookupA ((initialNameSpace VERTEXBUFFER).genName GlobalNameSpace.init 0
        true false).2.1.m_localToGlobalMap 0 = some 1 := by
  decide

/-- Claim C8 amended: every generate with `allocateLocal` set returns a
nonzero local name absent from the table before the call, and such a call
never makes 0 a key of the local-to-global map; only a generate with
`allocateLocal` clear and `requestedLocal = 0` can install key 0. -/
theorem claim_c8_gen_local_fresh (ns : NameSpace) (gns : GlobalNameSpace)
    (r : Nat) (gg : Bool) :
    (ns.genName gns r gg true).1 ≠ 0 ∧
    lookupA ns.m_localToGlobalMap (ns.genName gns r gg true).1 = none ∧
    (lookupA ns.m_localToGlobalMap 0 = none →
      lookupA (ns.genName gns r gg true).2.1.m_localToGlobalMap 0 = none) := by
  have hres : (ns.genName gns r gg true).1
      = freshLocal ns.m_localToGlobalMap ns.m_nextName := by
    cases gg <;> simp [NameSpace.genName]
  have hfresh := freshLocal_spec ns.m_localToGlobalMap ns.m_nextName
  refine ⟨?_, ?_, ?_⟩
  · rw [hres]
    exact freshLocal_ne_zero _ _
  · rw [hres]
    exact hfresh.2
  · intro h0
    cases gg with
    | false => simpa [NameSpace.genName] using h0
    | true =>
      have hne : (0:Nat) ≠ freshLocal ns.m_localToGlobalMap ns.m_nextName :=
        fun h => freshLocal_ne_zero _ _ h.symm
      simp only [NameSpace.genName, if_true]
      rw [lookupA_setA_ne hne]
      exact h0

/-- Witness for C8: a fresh-local generate on the empty table returns a
nonzero name and does not create key 0. -/
theorem claim_c8_witness :
    ((initialNameSpace VERTEXBUFFER).genName GlobalNameSpace.init 0 true
        true).1 ≠ 0 ∧
    lookupA ((initialNameSpace VERTEXBUFFER).genName GlobalNameSpace.init 0
        true true).2.1.m_localToGlobalMap 0 = none := by
  have h := claim_c8_gen_local_fresh (initialNameSpace VERTEXBUFFER)
    GlobalNameSpace.init 0 true
  exact ⟨h.1, h.2.2 (by decide)⟩

/-- Claim C9 as frozen is false: in a group where no texture reference was
ever acquired, the ref-count map was never created and
`decTexRefCounterAndReleaseIf0` trips `assert(m_globalTextureRefCounter)`
(and would dereference a null map) instead of returning 0 with the state
unchanged. -/
theorem claim_c9_counterexample :
    ShareGroup.init.decTexRefCounterAndReleaseIf0 GlobalNameSpace.init 1
        = none ∧
    ShareGroup.init.decTexRefCounterAndReleaseIf0 GlobalNameSpace.init 1
        ≠ some (0, ShareGroup.init, GlobalNameSpace.init) := by
  decide

/-- Claim C9 amended: when the ref-count table exists but has no entry for
`g`, the release returns 0, leaves the group and backend state unchanged
and makes no backend call; when the table was never created, the call
violates the code's own assertion instead of returning. -/
theorem claim_c9_release_absent_entry (sg : ShareGroup)
    (gns : GlobalNameSpace) (g : Nat) (map : List (Nat × Nat))
    (hmap : sg.m_globalTextureRefCounter = some map)
    (habs : lookupA map g = none) :
    sg.decTexRefCounterAndReleaseIf0 gns g = some (0, sg, gns) := by
  simp [ShareGroup.decTexRefCounterAndReleaseIf0, hmap, habs]

/-- Witness for C9 on a group whose ref-count table exists (only global 5
is counted) queried at the absent global 1. -/
theorem claim_c9_witness :
    texDemo.decTexRefCounterAndReleaseIf0 GlobalNameSpace.init 1
        = some (0, texDemo, GlobalNameSpace.init) :=
  claim_c9_release_absent_entry texDemo GlobalNameSpace.init 1 [(5, 1)]
    (by decide) (by decide)

/-- Claim C10: the pure lookups `getGlobalName`, `getLocalName`, `isObject`
and `getObjectData` leave the whole group state unchanged for every
in-range type; in particular `getObjectData` does not lazily create the
metadata store. -/
theorem claim_c10_lookups_pure (sg : ShareGroup) (t l g : Nat)
    (ht : t < NUM_OBJECT_TYPES) :
    (sg.getGlobalName t l).2 = sg ∧
    (sg.getLocalName t g).2 = sg ∧
    (sg.isObject t l).2 = sg ∧
    (sg.getObjectData t l).2 = sg := by
  have hlt : ¬ NUM_OBJECT_TYPES ≤ t := by omega
  refine ⟨?_, ?_, ?_, ?_⟩
  · simp [ShareGroup.getGlobalName, hlt]
  · simp [ShareGroup.getLocalName, hlt]
  · simp [ShareGroup.isObject, hlt]
  · cases hm : sg.m_objectsData <;>
      simp [ShareGroup.getObjectData, hlt, hm]

/-- Witness for C10 on the freshly constructed group. -/
theorem claim_c10_witness :
    (ShareGroup.init.getGlobalName 0 1).2 = ShareGroup.init ∧
    (ShareGroup.init.getLocalName 0 1).2 = ShareGroup.init ∧
    (ShareGroup.init.isObject 0 1).2 = ShareGroup.init ∧
    (ShareGroup.init.getObjectData 0 1).2 = ShareGroup.init :=
  claim_c10_lookups_pure ShareGroup.init 0 1 1 (by decide)
